import Mathlib

/-!
Shallow embedding of the `oxidize.ai` linear-algebra library
(`src/math/vector.rs` and `src/math/matrix.rs`) and proofs of the
specification claims about it.

Conventions of the embedding:
* `Vec<T>` becomes `List α`; `usize` indices become `Nat`.
* Rust's `T::default()` for numeric types is the additive zero, written `0`
  with a `[Zero α]` bound; `T::from(1)` is `1` with a `[One α]` bound.
* `Result<X, String>` becomes `Except String X`.
* In-place mutation (`Vector::set`, `Matrix::set`, the compound-assignment
  operators) is modelled by explicit state passing: the function returns the
  new state (paired with the `Result` where the Rust function returns one),
  and an error leaves the state equal to the input.
* The unchecked `Index` implementation `self[(r, c)] = self.data[r*cols + c]`
  is modelled by `Matrix.entry`, total via `List.getD` with default `0`
  (claims only evaluate it in bounds).
-/

namespace Oxidize

/-- `Vector<T>` from `src/math/vector.rs`: a single data buffer. -/
structure Vector (α : Type) where
  data : List α
deriving DecidableEq

namespace Vector

/-- `Vector::len`. -/
def len (v : Vector α) : Nat := v.data.length

/-- `Vector::get`: `self.data.get(index)` — `None` out of range. -/
def get (v : Vector α) (index : Nat) : Option α := v.data[index]?

/-- `Vector::set`: fails (state unchanged) when `index >= self.len()`,
otherwise writes `self.data[index] = value`. -/
def set (v : Vector α) (index : Nat) (value : α) :
    Except String Unit × Vector α :=
  if index ≥ v.len then
    (Except.error "Index is out of bounds", v)
  else
    (Except.ok (), ⟨v.data.set index value⟩)

/-- `Vector::zip_map`: `self.data.iter().zip(other.data.iter()).map(|(a,b)| f(a,b))`. -/
def zip_map (v other : Vector α) (f : α → α → β) : Vector β :=
  ⟨List.zipWith f v.data other.data⟩

/-- The loop `for (a, b) in self.iter_mut().zip(rhs.iter()) { *a op= *b }`
shared by the four compound-assignment operators: elements of `as` are
combined with elements of `bs` while both iterators yield, and the tail of
`as` beyond `bs`'s length is left untouched. -/
def zipAssign (f : α → α → α) : List α → List α → List α
  | as, [] => as
  | [], _ :: _ => []
  | a :: as, b :: bs => f a b :: zipAssign f as bs

/-- `impl AddAssign for Vector` (`*a += *b` elementwise, truncating at the
shorter operand, rest of `self` untouched). -/
def addAssign [Add α] (v rhs : Vector α) : Vector α :=
  ⟨zipAssign (· + ·) v.data rhs.data⟩

/-- `impl SubAssign for Vector`. -/
def subAssign [Sub α] (v rhs : Vector α) : Vector α :=
  ⟨zipAssign (· - ·) v.data rhs.data⟩

/-- `impl MulAssign for Vector`. -/
def mulAssign [Mul α] (v rhs : Vector α) : Vector α :=
  ⟨zipAssign (· * ·) v.data rhs.data⟩

/-- `impl DivAssign for Vector`. -/
def divAssign [Div α] (v rhs : Vector α) : Vector α :=
  ⟨zipAssign (· / ·) v.data rhs.data⟩

end Vector

/-- `Matrix<T>` from `src/math/matrix.rs`: row-major data with dimensions. -/
structure Matrix (α : Type) where
  rows : Nat
  cols : Nat
  data : List α
deriving DecidableEq

namespace Matrix

/-- The `data.len() == rows * cols` invariant of the spec's data model. -/
def dimInv (m : Matrix α) : Prop := m.data.length = m.rows * m.cols

instance (m : Matrix α) : Decidable m.dimInv := by
  unfold dimInv; infer_instance

/-- `impl Index<(usize,usize)>`: `self.data[row * self.cols + col]`.
Rust panics out of bounds; the embedding totalises with default `0`. -/
def entry [Zero α] (m : Matrix α) (row col : Nat) : α :=
  m.data.getD (row * m.cols + col) 0

/-- `impl IndexMut<(usize,usize)>` used as assignment target:
`self[(row, col)] = value` (unchecked). -/
def setIdx (m : Matrix α) (row col : Nat) (value : α) : Matrix α :=
  ⟨m.rows, m.cols, m.data.set (row * m.cols + col) value⟩

/-- `Matrix::new`: `Vec::with_capacity(rows * cols)` reserves capacity but
holds no elements, so the data buffer is empty. -/
def new (rows cols : Nat) : Matrix α := ⟨rows, cols, []⟩

/-- `Matrix::zeroes`: `vec![T::default(); rows * cols]`. -/
def zeroes [Zero α] (rows cols : Nat) : Matrix α :=
  ⟨rows, cols, List.replicate (rows * cols) 0⟩

/-- `Matrix::ones`: `vec![T::from(1); rows * cols]`. -/
def ones [One α] (rows cols : Nat) : Matrix α :=
  ⟨rows, cols, List.replicate (rows * cols) 1⟩

/-- `Matrix::identity`: start from `zeroes(size, size)` and set each
diagonal entry to `T::from(1)`. -/
def identity [Zero α] [One α] (size : Nat) : Matrix α :=
  (List.range size).foldl (fun m i => m.setIdx i i 1) (zeroes size size)

/-- `Matrix::from_vec`: rejects a flat buffer whose length mismatches. -/
def from_vec (rows cols : Nat) (data : List α) : Except String (Matrix α) :=
  if data.length ≠ rows * cols then
    Except.error "Data length does not match specified dimensions."
  else
    Except.ok ⟨rows, cols, data⟩

/-- `Matrix::from_rows`: rejects an empty list and ragged rows; otherwise
concatenates the rows' buffers. -/
def from_rows (rs : List (Vector α)) : Except String (Matrix α) :=
  match rs with
  | [] => Except.error "Cannot create matrix from empty vector of rows"
  | r :: rest =>
    if (r :: rest).all (fun row => row.len = r.len) then
      Except.ok ⟨(r :: rest).length, r.len,
        ((r :: rest).map Vector.data).flatten⟩
    else
      Except.error "All rows must be the same length"

/-- `Matrix::from_columns`: rejects an empty list and ragged columns;
otherwise scatters each column into a zero-initialised row-major buffer. -/
def from_columns [Zero α] (cs : List (Vector α)) : Except String (Matrix α) :=
  match cs with
  | [] => Except.error "Cannot create matrix from empty vector of colmuns"
  | c :: rest =>
    let numRows := c.len
    let numCols := (c :: rest).length
    if (c :: rest).all (fun col => col.len = numRows) then
      Except.ok ⟨numRows, numCols,
        (((c :: rest).enum).foldl (fun acc p =>
          (p.2.data.enum).foldl (fun acc2 q =>
            acc2.set (q.1 * numCols + p.1) q.2) acc)
          (List.replicate (numRows * numCols) 0))⟩
    else
      Except.error "All columns must be the same length"

/-- `Matrix::get`: `None` outside `[0,rows) × [0,cols)`. -/
def get [Zero α] (m : Matrix α) (row col : Nat) : Option α :=
  if row ≥ m.rows ∨ col ≥ m.cols then none
  else some (m.entry row col)

/-- `Matrix::set`: fails (state unchanged) out of bounds, otherwise writes
`self[(row, col)] = value`. -/
def set (m : Matrix α) (row col : Nat) (value : α) :
    Except String Unit × Matrix α :=
  if row ≥ m.rows ∨ col ≥ m.cols then
    (Except.error "Index out of bounds", m)
  else
    (Except.ok (), m.setIdx row col value)

/-- `Matrix::row`: `self.data[index*cols .. index*cols+cols].to_vec()`. -/
def row (m : Matrix α) (index : Nat) : Option (Vector α) :=
  if index ≥ m.rows then none
  else some ⟨(m.data.drop (index * m.cols)).take m.cols⟩

/-- The collection `[M.row(0), M.row(1), ..., M.row(rows-1)]` (the present
values of the per-index `row` calls). -/
def rowsOf (m : Matrix α) : List (Vector α) :=
  (List.range m.rows).filterMap m.row

/-- `Matrix::column`. -/
def column [Zero α] (m : Matrix α) (index : Nat) : Option (Vector α) :=
  if index ≥ m.cols then none
  else some ⟨(List.range m.rows).map (fun r => m.entry r index)⟩

/-- `Matrix::transpose`: push `self[(row, col)]` for `col` outer,
`row` inner — the flattened column-major traversal. -/
def transpose [Zero α] (m : Matrix α) : Matrix α :=
  ⟨m.cols, m.rows,
    ((List.range m.cols).map (fun col =>
      (List.range m.rows).map (fun row => m.entry row col))).flatten⟩

/-- `Matrix::reshape`. -/
def reshape (m : Matrix α) (new_rows new_cols : Nat) :
    Except String (Matrix α) :=
  if m.rows * m.cols ≠ new_rows * new_cols then
    Except.error "Cannot reshape matrix"
  else
    Except.ok ⟨new_rows, new_cols, m.data⟩

/-- `impl Add for Matrix`: dimension check then elementwise zip. -/
def add [Add α] (m rhs : Matrix α) : Except String (Matrix α) :=
  if m.rows ≠ rhs.rows ∨ m.cols ≠ rhs.cols then
    Except.error "Cannot add 2 matrices with incompatible dimensions"
  else
    Except.ok ⟨m.rows, m.cols, List.zipWith (· + ·) m.data rhs.data⟩

/-- `impl Sub for Matrix`. -/
def sub [Sub α] (m rhs : Matrix α) : Except String (Matrix α) :=
  if m.rows ≠ rhs.rows ∨ m.cols ≠ rhs.cols then
    Except.error "Cannot substract 2 matrices with incompatible matrices"
  else
    Except.ok ⟨m.rows, m.cols, List.zipWith (· - ·) m.data rhs.data⟩

/-- `impl Mul for Matrix`: after the `self.cols == rhs.rows` check, cell
`(i, j)` of the row-major result is
`(0..self.cols).map(|k| self[(i,k)] * rhs[(k,j)]).fold(T::default(), +)`. -/
def mul [Zero α] [Add α] [Mul α] (m rhs : Matrix α) :
    Except String (Matrix α) :=
  if m.cols ≠ rhs.rows then
    Except.error "Cannot multiply matrices"
  else
    Except.ok ⟨m.rows, rhs.cols,
      ((List.range m.rows).map (fun i =>
        (List.range rhs.cols).map (fun j =>
          ((List.range m.cols).map (fun k =>
            m.entry i k * rhs.entry k j)).foldl (· + ·) 0))).flatten⟩

/-- `Matrix::scalar_multiply`: `x * scalar` on every entry. -/
def scalar_multiply [Mul α] (m : Matrix α) (scalar : α) : Matrix α :=
  ⟨m.rows, m.cols, m.data.map (fun x => x * scalar)⟩

/-- `Matrix::hadamard_product`. -/
def hadamard_product [Mul α] (m other : Matrix α) :
    Except String (Matrix α) :=
  if m.rows ≠ other.rows ∨ m.cols ≠ other.cols then
    Except.error "Matrices must have the same dimensions for Hadamard product"
  else
    Except.ok ⟨m.rows, m.cols, List.zipWith (· * ·) m.data other.data⟩

/-- The inner double loop of `Matrix::determinant` building the minor:
`for i in 1..n { for k in 0..n { if k != j { push self[(i,k)] } } }`,
packed as an `(n-1)×(n-1)` matrix. -/
def submatrix0 [Zero α] (m : Matrix α) (j : Nat) : Matrix α :=
  ⟨m.rows - 1, m.rows - 1,
    ((List.range (m.rows - 1)).map (fun i =>
      ((List.range m.rows).filter (fun k => k ≠ j)).map
        (fun k => m.entry (i + 1) k))).flatten⟩

/-- One unfolding of `Matrix::determinant` with the recursive call
abstracted: square check, the 1×1 and 2×2 base cases, then the
Laplace-expansion loop with `?`-propagation of sub-errors. -/
def detStep [Zero α] [Add α] [Sub α] [Mul α]
    (recur : Matrix α → Except String α) (m : Matrix α) :
    Except String α :=
  if m.rows ≠ m.cols then
    Except.error "Matrix must be square to computer determinant"
  else if m.rows = 1 then
    Except.ok (m.entry 0 0)
  else if m.rows = 2 then
    Except.ok (m.entry 0 0 * m.entry 1 1 - m.entry 0 1 * m.entry 1 0)
  else
    (List.range m.rows).foldlM (fun det j => do
      let subdet ← recur (m.submatrix0 j)
      pure (if j % 2 = 0 then det + m.entry 0 j * subdet
            else det - m.entry 0 j * subdet)) 0

/-- `Matrix::determinant` unrolled on a structural depth counter: each
recursive call is on an `(n-1)×(n-1)` minor, so depth `m.rows` is exactly
enough (the `n ≥ 3` branch at depth `d+1` recurses at depth `d = n-1`). -/
def detN [Zero α] [Add α] [Sub α] [Mul α] :
    Nat → Matrix α → Except String α
  | 0, m => detStep (fun _ => Except.error "unreachable") m
  | d + 1, m => detStep (detN d) m

/-- `Matrix::determinant`. -/
def determinant [Zero α] [Add α] [Sub α] [Mul α] (m : Matrix α) :
    Except String α :=
  detN m.rows m

/-- The value carried by a successful `determinant`, `0` on the error path;
used to phrase the Laplace expansion without an existential. -/
def detVal [Zero α] [Add α] [Sub α] [Mul α] (m : Matrix α) : α :=
  match m.determinant with
  | Except.ok v => v
  | Except.error _ => 0

end Matrix

/-! ### Helper lemmas about the embedding -/

section Helpers

variable {α : Type} {β : Type}

lemma zipAssign_length (f : α → α → α) :
    ∀ (as bs : List α), (Vector.zipAssign f as bs).length = as.length
  | as, [] => by simp [Vector.zipAssign]
  | [], _ :: _ => by simp [Vector.zipAssign]
  | a :: as, b :: bs => by
    simp [Vector.zipAssign, zipAssign_length f as bs]

lemma zipAssign_getElem?_lt (f : α → α → α) :
    ∀ (as bs : List α) (i : Nat), i < as.length → i < bs.length →
      ∃ x y, as[i]? = some x ∧ bs[i]? = some y ∧
        (Vector.zipAssign f as bs)[i]? = some (f x y)
  | _, [], _, _, h2 => by simp at h2
  | [], _ :: _, _, h1, _ => by simp at h1
  | a :: as, b :: bs, 0, _, _ => by
    exact ⟨a, b, by simp, by simp, by simp [Vector.zipAssign]⟩
  | a :: as, b :: bs, i + 1, h1, h2 => by
    simpa [Vector.zipAssign] using
      zipAssign_getElem?_lt f as bs i (by simpa using h1) (by simpa using h2)

lemma zipAssign_getElem?_ge (f : α → α → α) :
    ∀ (as bs : List α) (i : Nat), bs.length ≤ i →
      (Vector.zipAssign f as bs)[i]? = as[i]?
  | as, [], i, _ => by simp [Vector.zipAssign]
  | [], _ :: _, i, _ => by simp [Vector.zipAssign]
  | a :: as, b :: bs, 0, h => by simp at h
  | a :: as, b :: bs, i + 1, h => by
    simpa [Vector.zipAssign] using
      zipAssign_getElem?_ge f as bs i (by simpa using h)

lemma zipAssign_nil_right (f : α → α → α) (as : List α) :
    Vector.zipAssign f as [] = as := by
  cases as <;> rfl

/-- Row-major position of an in-range cell is within a `R * C` buffer. -/
lemma index_lt {i j R C : Nat} (hi : i < R) (hj : j < C) :
    i * C + j < R * C :=
  calc i * C + j < i * C + C := by omega
    _ = (i + 1) * C := by ring
    _ ≤ R * C := Nat.mul_le_mul_right C hi

/-- Row-major positions determine the cell when the column is in range. -/
lemma rowmajor_inj {C r c r' c' : Nat} (hc : c < C) (hc' : c' < C)
    (h : r' * C + c' = r * C + c) : r' = r ∧ c' = c := by
  have hC : 0 < C := by omega
  have hr : r' = r := by
    have h1 : (C * r' + c') / C = r' := by
      rw [Nat.mul_add_div hC, Nat.div_eq_of_lt hc', Nat.add_zero]
    have h2 : (C * r + c) / C = r := by
      rw [Nat.mul_add_div hC, Nat.div_eq_of_lt hc, Nat.add_zero]
    rw [Nat.mul_comm r' C, Nat.mul_comm r C] at h
    rw [h] at h1
    omega
  refine ⟨hr, ?_⟩
  subst hr
  omega

lemma getD_map_range (g : Nat → α) (d : α) {n i : Nat} (h : i < n) :
    ((List.range n).map g).getD i d = g i := by
  have hlen : i < ((List.range n).map g).length := by simpa using h
  rw [List.getD_eq_getElem _ _ hlen, List.getElem_map, List.getElem_range]

/-- Indexing into a concatenation of equal-length blocks. -/
lemma flatten_getD (d : α) :
    ∀ (L : List (List α)) (w i j : Nat), (∀ l ∈ L, l.length = w) →
      i < L.length → j < w →
      L.flatten.getD (i * w + j) d = (L.getD i []).getD j d
  | [], _, i, _, _, hi, _ => by simp at hi
  | l :: L, w, 0, j, hall, hi, hj => by
    have hl : l.length = w := hall l (by simp)
    rw [List.flatten_cons, List.getD_eq_getElem?_getD, Nat.zero_mul, Nat.zero_add,
      List.getElem?_append, if_pos (by omega)]
    simp [List.getD_cons_zero, List.getD_eq_getElem?_getD]
  | l :: L, w, i + 1, j, hall, hi, hj => by
    have hl : l.length = w := hall l (by simp)
    have harith : (i + 1) * w + j - l.length = i * w + j := by
      rw [hl, Nat.succ_mul]; omega
    rw [List.flatten_cons, List.getD_eq_getElem?_getD,
      List.getElem?_append_right (by rw [hl, Nat.succ_mul]; omega), harith,
      ← List.getD_eq_getElem?_getD]
    exact flatten_getD d L w i j (fun x hx => hall x (by simp [hx]))
      (by simpa using hi) hj

/-- Entry of a matrix whose buffer is an explicit row-by-row grid. -/
lemma entry_grid [Zero α] (g : Nat → Nat → α) {R C i j : Nat}
    (hi : i < R) (hj : j < C) :
    (Matrix.mk R C (((List.range R).map
        (fun r => (List.range C).map (g r))).flatten)).entry i j = g i j := by
  unfold Matrix.entry
  show (((List.range R).map (fun r => (List.range C).map (g r))).flatten).getD
    (i * C + j) 0 = g i j
  rw [flatten_getD 0 _ C i j ?_ (by simpa using hi) hj]
  · rw [getD_map_range _ _ hi, getD_map_range _ _ hj]
  · intro l hl
    simp only [List.mem_map] at hl
    obtain ⟨r, _, rfl⟩ := hl
    simp

/-- Re-concatenating the row-major chunks of a buffer of length `n * w`
recovers the buffer. -/
lemma flatten_chunks :
    ∀ (n : Nat) (w : Nat) (l : List α), l.length = n * w →
      ((List.range n).map (fun i => (l.drop (i * w)).take w)).flatten = l
  | 0, w, l, h => by
    simp only [Nat.zero_mul] at h
    simp [List.length_eq_zero.mp h]
  | n + 1, w, l, h => by
    rw [List.range_succ_eq_map, List.map_cons, List.map_map, List.flatten_cons,
      Nat.zero_mul, List.drop_zero]
    have hrest : (List.range n).map ((fun i => (l.drop (i * w)).take w) ∘ Nat.succ)
        = (List.range n).map (fun i => ((l.drop w).drop (i * w)).take w) := by
      refine List.map_congr_left (fun i _ => ?_)
      simp only [Function.comp_apply, List.drop_drop]
      rw [Nat.succ_mul, Nat.add_comm (i * w) w]
    rw [hrest, flatten_chunks n w (l.drop w)
      (by rw [List.length_drop, h, Nat.succ_mul]; omega)]
    exact List.take_append_drop w l

/-- A matrix with the dimension invariant is the grid of its entries. -/
lemma data_flatten_entries [Zero α] (m : Matrix α) (hinv : m.dimInv) :
    ((List.range m.rows).map
      (fun i => (List.range m.cols).map (m.entry i))).flatten = m.data := by
  have hchunk : ∀ i ∈ List.range m.rows,
      (List.range m.cols).map (m.entry i)
        = (m.data.drop (i * m.cols)).take m.cols := by
    intro i hi
    rw [List.mem_range] at hi
    refine List.ext_getElem ?_ ?_
    · simp only [List.length_map, List.length_range, List.length_take,
        List.length_drop]
      rw [hinv]
      have h1 : (i + 1) * m.cols ≤ m.rows * m.cols :=
        Nat.mul_le_mul_right m.cols hi
      rw [Nat.succ_mul] at h1
      omega
    · intro j hj1 hj2
      simp only [List.length_map, List.length_range] at hj1
      have hlt : i * m.cols + j < m.data.length := by
        rw [hinv]; exact index_lt hi hj1
      simp only [List.getElem_map, List.getElem_range, List.getElem_take,
        List.getElem_drop]
      unfold Matrix.entry
      rw [List.getD_eq_getElem _ _ hlt]
  rw [List.map_congr_left hchunk]
  exact flatten_chunks m.rows m.cols m.data hinv

/-- A fold of single-cell writes leaves the buffer length unchanged. -/
lemma length_foldl_preserved {σ : Type} (g : List α → σ → List α)
    (h : ∀ acc x, (g acc x).length = acc.length) :
    ∀ (l : List σ) (init : List α), (l.foldl g init).length = init.length
  | [], init => rfl
  | x :: l, init => by
    rw [List.foldl_cons, length_foldl_preserved g h l (g init x), h]

/-- Reading a position after a fold of writes at positions `h j`, `j ∈ js`. -/
lemma foldl_set_getElem? (h : Nat → Nat) (v : α) :
    ∀ (js : List Nat) (l : List α) (p : Nat),
      (js.foldl (fun acc j => acc.set (h j) v) l)[p]? =
        if p ∈ js.map h ∧ p < l.length then some v else l[p]?
  | [], l, p => by simp
  | j :: js, l, p => by
    rw [List.foldl_cons, foldl_set_getElem? h v js (l.set (h j) v) p,
      List.length_set]
    by_cases hmem : p ∈ js.map h
    · by_cases hlen : p < l.length
      · rw [if_pos ⟨hmem, hlen⟩, if_pos ⟨by simp [hmem], hlen⟩]
      · rw [if_neg (fun hc => hlen hc.2), if_neg (fun hc => hlen hc.2),
          List.getElem?_set]
        by_cases hjp : h j = p
        · rw [if_pos hjp, if_neg (by omega)]
          exact (List.getElem?_eq_none (by omega)).symm
        · rw [if_neg hjp]
    · rw [if_neg (fun hc => hmem hc.1), List.getElem?_set]
      by_cases hjp : h j = p
      · by_cases hlen : p < l.length
        · rw [if_pos hjp, if_pos (by omega),
            if_pos ⟨by rw [List.map_cons]; exact List.mem_cons.mpr (Or.inl hjp.symm), hlen⟩]
        · rw [if_pos hjp, if_neg (by omega), if_neg (fun hc => hlen hc.2),
            List.getElem?_eq_none (by omega)]
      · rw [if_neg hjp, if_neg (fun hc => ?_)]
        have hm : p ∈ h j :: js.map h := by
          have h0 := hc.1
          rwa [List.map_cons] at h0
        rcases List.mem_cons.mp hm with h1 | h1
        · exact hjp h1.symm
        · exact hmem h1

/-- `getD` version of `foldl_set_getElem?`. -/
lemma foldl_set_getD (h : Nat → Nat) (v : α) (js : List Nat) (l : List α)
    (p : Nat) (d : α) :
    (js.foldl (fun acc j => acc.set (h j) v) l).getD p d =
      if p ∈ js.map h ∧ p < l.length then v else l.getD p d := by
  rw [List.getD_eq_getElem?_getD, foldl_set_getElem? h v js l p]
  by_cases hc : p ∈ js.map h ∧ p < l.length
  · rw [if_pos hc, if_pos hc]
    rfl
  · rw [if_neg hc, if_neg hc, List.getD_eq_getElem?_getD]

/-- The diagonal-writing fold of `Matrix::identity` keeps the dimensions and
acts on the buffer as a fold of `List.set` writes. -/
lemma foldl_setIdx_diag [One α] (v : α) :
    ∀ (js : List Nat) (m0 : Matrix α),
      (js.foldl (fun (m : Matrix α) i => m.setIdx i i v) m0).rows = m0.rows ∧
      (js.foldl (fun (m : Matrix α) i => m.setIdx i i v) m0).cols = m0.cols ∧
      (js.foldl (fun (m : Matrix α) i => m.setIdx i i v) m0).data =
        js.foldl (fun l i => l.set (i * m0.cols + i) v) m0.data
  | [], m0 => ⟨rfl, rfl, rfl⟩
  | j :: js, m0 => by
    obtain ⟨h1, h2, h3⟩ := foldl_setIdx_diag v js (m0.setIdx j j v)
    exact ⟨h1, h2, h3⟩

/-- Dimensions of `Matrix.identity` and its buffer as a fold of writes. -/
lemma identity_dims [Zero α] [One α] (n : Nat) :
    (Matrix.identity n : Matrix α).rows = n ∧
    (Matrix.identity n : Matrix α).cols = n ∧
    (Matrix.identity n : Matrix α).data =
      (List.range n).foldl (fun l i => l.set (i * n + i) 1)
        (List.replicate (n * n) 0) := by
  obtain ⟨h1, h2, h3⟩ :=
    foldl_setIdx_diag (1 : α) (List.range n) (Matrix.zeroes n n)
  exact ⟨h1, h2, h3⟩

/-- A row-major position hits the diagonal-write positions iff it is on the
diagonal. -/
lemma diag_mem_iff {n k j : Nat} (hk : k < n) (hj : j < n) :
    (k * n + j ∈ (List.range n).map (fun i => i * n + i)) ↔ k = j := by
  constructor
  · intro hmem
    simp only [List.mem_map, List.mem_range] at hmem
    obtain ⟨i, hi, heq⟩ := hmem
    have hn : 0 < n := by omega
    have heq' : n * i + i = n * k + j := by
      rw [Nat.mul_comm n i, Nat.mul_comm n k]
      exact heq
    have hik : i = k := by
      have d1 : (n * i + i) / n = i := by
        rw [Nat.mul_add_div hn, Nat.div_eq_of_lt hi, Nat.add_zero]
      have d2 : (n * k + j) / n = k := by
        rw [Nat.mul_add_div hn, Nat.div_eq_of_lt hj, Nat.add_zero]
      rw [← d1, ← d2, heq']
    subst hik
    omega
  · rintro rfl
    exact List.mem_map.mpr ⟨k, List.mem_range.mpr hk, rfl⟩

/-- The in-range entries of `Matrix.identity` are the Kronecker delta. -/
lemma identity_entry [Zero α] [One α] {n k j : Nat} (hk : k < n) (hj : j < n) :
    (Matrix.identity n : Matrix α).entry k j = if k = j then 1 else 0 := by
  obtain ⟨h1, h2, h3⟩ := identity_dims (α := α) n
  unfold Matrix.entry
  rw [h2, h3, foldl_set_getD, List.length_replicate]
  by_cases hkj : k = j
  · rw [if_pos ⟨(diag_mem_iff hk hj).mpr hkj, index_lt hk hj⟩, if_pos hkj]
  · rw [if_neg (fun hc => hkj ((diag_mem_iff hk hj).mp hc.1)), if_neg hkj,
      List.getD_eq_getElem _ _
        (by rw [List.length_replicate]; exact index_lt hk hj)]
    simp

lemma identity_data_length [Zero α] [One α] (n : Nat) :
    (Matrix.identity n : Matrix α).data.length = n * n := by
  obtain ⟨-, -, h3⟩ := identity_dims (α := α) n
  rw [h3, length_foldl_preserved _ (fun acc x => by simp),
    List.length_replicate]

/-- A left fold of `+` from `0` over mapped range values is the range sum. -/
lemma foldl_add_eq_sum [AddCommMonoid α] (f : Nat → α) :
    ∀ (n : Nat), ((List.range n).map f).foldl (· + ·) 0
      = ∑ j ∈ Finset.range n, f j
  | 0 => by simp
  | n + 1 => by
    rw [List.range_succ, List.map_append, List.foldl_append,
      foldl_add_eq_sum f n, Finset.sum_range_succ]
    simp

/-- The sign-alternating accumulator of the Laplace loop is the signed sum. -/
lemma foldl_signed_eq_sum [CommRing α] (c : Nat → α) :
    ∀ (n : Nat) (init : α),
      (List.range n).foldl
        (fun det j => if j % 2 = 0 then det + c j else det - c j) init
        = init + ∑ j ∈ Finset.range n, (-1 : α) ^ j * c j
  | 0, init => by simp
  | n + 1, init => by
    rw [List.range_succ, List.foldl_append, foldl_signed_eq_sum c n init,
      Finset.sum_range_succ]
    simp only [List.foldl_cons, List.foldl_nil]
    by_cases hn : n % 2 = 0
    · rw [if_pos hn, (Nat.even_iff.mpr hn).neg_one_pow]
      ring
    · rw [if_neg hn, (Nat.odd_iff.mpr (by omega)).neg_one_pow]
      ring

/-- A `foldlM` in `Except` whose every step succeeds is the pure fold. -/
lemma foldlM_except_ok {ι β σ : Type} (q : ι → Except String β)
    (g : σ → ι → β → σ) (f₀ : ι → β) :
    ∀ (l : List ι) (init : σ), (∀ j ∈ l, q j = Except.ok (f₀ j)) →
      (l.foldlM (fun acc j => do
        let s ← q j
        pure (g acc j s)) init : Except String σ)
        = Except.ok (l.foldl (fun acc j => g acc j (f₀ j)) init)
  | [], init, _ => rfl
  | j :: l, init, H => by
    have hj := H j (by simp)
    show ((do
      let s ← q j
      pure (g init j s)) >>= fun acc =>
        (l.foldlM (fun acc j => do
          let s ← q j
          pure (g acc j s)) acc : Except String σ)) = _
    rw [hj]
    show (l.foldlM (fun acc j => do
        let s ← q j
        pure (g acc j s)) (g init j (f₀ j)) : Except String σ) = _
    rw [foldlM_except_ok q g f₀ l (g init j (f₀ j))
      (fun x hx => H x (by simp [hx])), List.foldl_cons]

/-- A non-square matrix fails the determinant's square check. -/
lemma determinant_not_square [Zero α] [Add α] [Sub α] [Mul α]
    (m : Matrix α) (h : m.rows ≠ m.cols) :
    m.determinant
      = Except.error "Matrix must be square to computer determinant" := by
  unfold Matrix.determinant
  rcases hn : m.rows with _ | d
  all_goals
    unfold Matrix.detN Matrix.detStep
    rw [if_pos h]

lemma determinant_zero_size [Zero α] [Add α] [Sub α] [Mul α]
    (m : Matrix α) (h0 : m.rows = 0) (hc : m.cols = 0) :
    m.determinant = Except.ok 0 := by
  unfold Matrix.determinant
  rw [h0]
  unfold Matrix.detN Matrix.detStep
  rw [if_neg (by omega), if_neg (by omega), if_neg (by omega), h0]
  rfl

lemma determinant_one_size [Zero α] [Add α] [Sub α] [Mul α]
    (m : Matrix α) (h1 : m.rows = 1) (hc : m.cols = 1) :
    m.determinant = Except.ok (m.entry 0 0) := by
  unfold Matrix.determinant
  rw [h1]
  unfold Matrix.detN Matrix.detStep
  rw [if_neg (by omega), if_pos h1]

lemma determinant_two_size [Zero α] [Add α] [Sub α] [Mul α]
    (m : Matrix α) (h2 : m.rows = 2) (hc : m.cols = 2) :
    m.determinant
      = Except.ok (m.entry 0 0 * m.entry 1 1 - m.entry 0 1 * m.entry 1 0) := by
  unfold Matrix.determinant
  rw [h2]
  unfold Matrix.detN Matrix.detStep
  rw [if_neg (by omega), if_neg (by omega), if_pos h2]

/-- For `n ≥ 3` the determinant is the Laplace loop, with the recursive call
on each minor being `determinant` again (the minor has `n - 1` rows, which is
exactly the remaining depth). -/
lemma determinant_ge3 [Zero α] [Add α] [Sub α] [Mul α]
    (m : Matrix α) (hsq : m.rows = m.cols) (h3 : 3 ≤ m.rows) :
    m.determinant = (List.range m.rows).foldlM (fun det j => do
      let subdet ← (m.submatrix0 j).determinant
      pure (if j % 2 = 0 then det + m.entry 0 j * subdet
            else det - m.entry 0 j * subdet)) 0 := by
  obtain ⟨d, hd⟩ : ∃ d, m.rows = d + 1 := ⟨m.rows - 1, by omega⟩
  have hrecur : ∀ j, Matrix.detN d (m.submatrix0 j)
      = (m.submatrix0 j).determinant := by
    intro j
    show Matrix.detN d (m.submatrix0 j)
      = Matrix.detN (m.submatrix0 j).rows (m.submatrix0 j)
    congr 1
    show d = m.rows - 1
    omega
  have h0 : m.determinant = Matrix.detN (d + 1) m := by
    rw [← hd]
    rfl
  rw [h0]
  show Matrix.detStep (Matrix.detN d) m = _
  unfold Matrix.detStep
  rw [if_neg (fun hne => hne hsq), if_neg (by omega), if_neg (by omega)]
  simp only [hrecur]

/-- Every square matrix has a successful determinant. -/
lemma determinant_ok [Zero α] [Add α] [Sub α] [Mul α] :
    ∀ (n : Nat) (m : Matrix α), m.rows = n → m.rows = m.cols →
      ∃ v, m.determinant = Except.ok v := by
  intro n
  induction n using Nat.strong_induction_on with
  | _ n ih =>
    intro m hn hsq
    rcases n with _ | _ | _ | d
    · exact ⟨0, determinant_zero_size m hn (by omega)⟩
    · exact ⟨_, determinant_one_size m hn (by omega)⟩
    · exact ⟨_, determinant_two_size m hn (by omega)⟩
    · have h3 : 3 ≤ m.rows := by omega
      rw [determinant_ge3 m hsq h3]
      have hsub : ∀ j ∈ List.range m.rows,
          (m.submatrix0 j).determinant
            = Except.ok ((m.submatrix0 j).detVal) := by
        intro j _
        obtain ⟨v, hv⟩ := ih (m.rows - 1) (by omega) (m.submatrix0 j) rfl rfl
        unfold Matrix.detVal
        rw [hv]
      exact ⟨_, foldlM_except_ok (fun j => (m.submatrix0 j).determinant)
        (fun acc j s => if j % 2 = 0 then acc + m.entry 0 j * s
          else acc - m.entry 0 j * s)
        (fun j => (m.submatrix0 j).detVal) (List.range m.rows) 0 hsub⟩

/-- On a square matrix, `determinant` returns exactly `detVal`. -/
lemma determinant_eq_detVal [Zero α] [Add α] [Sub α] [Mul α]
    (m : Matrix α) (hsq : m.rows = m.cols) :
    m.determinant = Except.ok m.detVal := by
  obtain ⟨v, hv⟩ := determinant_ok m.rows m rfl hsq
  unfold Matrix.detVal
  rw [hv]

/-- Closed form of the `n ≥ 3` case: the signed Laplace expansion along the
first row. -/
lemma determinant_laplace [CommRing α] (m : Matrix α)
    (hsq : m.rows = m.cols) (h3 : 3 ≤ m.rows) :
    m.determinant = Except.ok (∑ j ∈ Finset.range m.rows,
      (-1 : α) ^ j * m.entry 0 j * (m.submatrix0 j).detVal) := by
  rw [determinant_ge3 m hsq h3,
    foldlM_except_ok (fun j => (m.submatrix0 j).determinant)
      (fun acc j s => if j % 2 = 0 then acc + m.entry 0 j * s
        else acc - m.entry 0 j * s)
      (fun j => (m.submatrix0 j).detVal) (List.range m.rows) 0
      (fun j _ => determinant_eq_detVal (m.submatrix0 j) rfl)]
  have hfold := foldl_signed_eq_sum
    (fun j => m.entry 0 j * (m.submatrix0 j).detVal) m.rows 0
  rw [show (List.range m.rows).foldl (fun acc j =>
      if j % 2 = 0 then acc + m.entry 0 j * (m.submatrix0 j).detVal
      else acc - m.entry 0 j * (m.submatrix0 j).detVal) 0
      = 0 + ∑ j ∈ Finset.range m.rows,
        (-1 : α) ^ j * (m.entry 0 j * (m.submatrix0 j).detVal) from hfold,
    zero_add]
  congr 1
  refine Finset.sum_congr rfl (fun j _ => ?_)
  ring

/-- The behaviour shared by the four compound-assignment operators. -/
lemma assign_spec (f : α → α → α) (a b : Vector α) :
    (Vector.mk (Vector.zipAssign f a.data b.data)).len = a.len ∧
    (∀ i, i < min a.len b.len → ∃ x y, a.get i = some x ∧ b.get i = some y ∧
      (Vector.mk (Vector.zipAssign f a.data b.data)).get i = some (f x y)) ∧
    (∀ i, b.len ≤ i →
      (Vector.mk (Vector.zipAssign f a.data b.data)).get i = a.get i) ∧
    (b.len = 0 → Vector.mk (Vector.zipAssign f a.data b.data) = a) := by
  refine ⟨?_, ?_, ?_, ?_⟩
  · exact zipAssign_length f a.data b.data
  · intro i hi
    exact zipAssign_getElem?_lt f a.data b.data i
      (lt_of_lt_of_le hi (min_le_left _ _))
      (lt_of_lt_of_le hi (min_le_right _ _))
  · intro i hi
    exact zipAssign_getElem?_ge f a.data b.data i hi
  · intro h0
    have hb : b.data = [] := List.length_eq_zero.mp h0
    rw [hb, zipAssign_nil_right]

end Helpers

/-! ### Claim theorems -/

/-- On compatible dimensions `Matrix.mul` yields the grid of fold-of-products
cells. -/
lemma mul_ok_spec {α : Type} [Zero α] [Add α] [Mul α] (a b : Matrix α)
    (h : a.cols = b.rows) :
    a.mul b = Except.ok ⟨a.rows, b.cols,
      ((List.range a.rows).map (fun i => (List.range b.cols).map (fun j =>
        ((List.range a.cols).map (fun k =>
          a.entry i k * b.entry k j)).foldl (· + ·) 0))).flatten⟩ := by
  unfold Matrix.mul
  rw [if_neg (fun hne => hne h)]

/-- C1: determinant of a non-square matrix fails with an error; on a square
matrix it returns the single entry for n = 1, `ad - bc` for n = 2, and for
n ≥ 3 the Laplace expansion along the first row: each minor's determinant
succeeds and the total is the alternating-sign sum, positive at j = 0. -/
theorem C1_determinant {α : Type} [CommRing α] (m : Matrix α) :
    (m.rows ≠ m.cols → m.determinant
      = Except.error "Matrix must be square to computer determinant") ∧
    (m.rows = m.cols →
      (m.rows = 1 → m.determinant = Except.ok (m.entry 0 0)) ∧
      (m.rows = 2 → m.determinant
        = Except.ok (m.entry 0 0 * m.entry 1 1 - m.entry 0 1 * m.entry 1 0)) ∧
      (3 ≤ m.rows →
        (∀ j, j < m.rows → (m.submatrix0 j).determinant
          = Except.ok ((m.submatrix0 j).detVal)) ∧
        m.determinant = Except.ok (∑ j ∈ Finset.range m.rows,
          (-1 : α) ^ j * m.entry 0 j * (m.submatrix0 j).detVal))) := by
  refine ⟨fun h => determinant_not_square m h, fun hsq => ⟨?_, ?_, ?_⟩⟩
  · intro h1
    exact determinant_one_size m h1 (by omega)
  · intro h2
    exact determinant_two_size m h2 (by omega)
  · intro h3
    exact ⟨fun j _ => determinant_eq_detVal (m.submatrix0 j) rfl,
      determinant_laplace m hsq h3⟩

/-- C1 witness: a concrete 3×3 integer matrix takes the Laplace branch. -/
theorem C1_witness :
    (∀ j, j < (⟨3, 3, [1, 2, 3, 4, 5, 6, 7, 8, 10]⟩ : Matrix ℤ).rows →
      ((⟨3, 3, [1, 2, 3, 4, 5, 6, 7, 8, 10]⟩ : Matrix ℤ).submatrix0
        j).determinant
        = Except.ok (((⟨3, 3, [1, 2, 3, 4, 5, 6, 7, 8, 10]⟩ :
            Matrix ℤ).submatrix0 j).detVal)) ∧
    (⟨3, 3, [1, 2, 3, 4, 5, 6, 7, 8, 10]⟩ : Matrix ℤ).determinant
      = Except.ok (∑ j ∈ Finset.range
          (⟨3, 3, [1, 2, 3, 4, 5, 6, 7, 8, 10]⟩ : Matrix ℤ).rows,
        (-1 : ℤ) ^ j
          * (⟨3, 3, [1, 2, 3, 4, 5, 6, 7, 8, 10]⟩ : Matrix ℤ).entry 0 j
          * ((⟨3, 3, [1, 2, 3, 4, 5, 6, 7, 8, 10]⟩ :
              Matrix ℤ).submatrix0 j).detVal) :=
  ((C1_determinant (⟨3, 3, [1, 2, 3, 4, 5, 6, 7, 8, 10]⟩ : Matrix ℤ)).2
    rfl).2.2 (by decide)

/-- C3: multiplication fails exactly when the inner dimensions disagree;
otherwise the result is `A.rows × B.cols` and each cell is the fold of
products from the value type's zero — the dot product of a row of `A` and a
column of `B`. -/
theorem C3_matrix_mul {α : Type} [CommRing α] (a b : Matrix α) :
    (a.cols ≠ b.rows → a.mul b = Except.error "Cannot multiply matrices") ∧
    (a.cols = b.rows → ∃ c, a.mul b = Except.ok c ∧ c.rows = a.rows ∧
      c.cols = b.cols ∧
      ∀ i j, i < a.rows → j < b.cols →
        c.entry i j = ((List.range a.cols).map
            (fun k => a.entry i k * b.entry k j)).foldl (· + ·) 0 ∧
        c.entry i j = ∑ k ∈ Finset.range a.cols,
          a.entry i k * b.entry k j) := by
  constructor
  · intro hne
    unfold Matrix.mul
    rw [if_pos hne]
  · intro h
    refine ⟨_, mul_ok_spec a b h, rfl, rfl, ?_⟩
    intro i j hi hj
    have he := entry_grid (fun r s => ((List.range a.cols).map
      (fun k => a.entry r k * b.entry k s)).foldl (· + ·) 0) hi hj
    refine ⟨he, ?_⟩
    rw [he]
    show ((List.range a.cols).map
      (fun k => a.entry i k * b.entry k j)).foldl (· + ·) 0 = _
    rw [foldl_add_eq_sum]

/-- C3 witness: a concrete 2×2 product over ℤ. -/
theorem C3_witness :
    ∃ c, (⟨2, 2, [1, 2, 3, 4]⟩ : Matrix ℤ).mul ⟨2, 2, [5, 6, 7, 8]⟩
        = Except.ok c ∧
      c.rows = (⟨2, 2, [1, 2, 3, 4]⟩ : Matrix ℤ).rows ∧
      c.cols = (⟨2, 2, [5, 6, 7, 8]⟩ : Matrix ℤ).cols ∧
      ∀ i j, i < (⟨2, 2, [1, 2, 3, 4]⟩ : Matrix ℤ).rows →
        j < (⟨2, 2, [5, 6, 7, 8]⟩ : Matrix ℤ).cols →
        c.entry i j = ((List.range (⟨2, 2, [1, 2, 3, 4]⟩ : Matrix ℤ).cols).map
          (fun k => (⟨2, 2, [1, 2, 3, 4]⟩ : Matrix ℤ).entry i k *
            (⟨2, 2, [5, 6, 7, 8]⟩ : Matrix ℤ).entry k j)).foldl (· + ·) 0 ∧
        c.entry i j = ∑ k ∈ Finset.range (⟨2, 2, [1, 2, 3, 4]⟩ :
            Matrix ℤ).cols,
          (⟨2, 2, [1, 2, 3, 4]⟩ : Matrix ℤ).entry i k *
            (⟨2, 2, [5, 6, 7, 8]⟩ : Matrix ℤ).entry k j :=
  (C3_matrix_mul (⟨2, 2, [1, 2, 3, 4]⟩ : Matrix ℤ) ⟨2, 2, [5, 6, 7, 8]⟩).2 rfl

/-- Sum of the lengths of equal-length buffers. -/
lemma sum_map_const_length {α : Type} {w : Nat} :
    ∀ (ls : List (List α)), (∀ l ∈ ls, l.length = w) →
      (ls.map List.length).sum = ls.length * w
  | [], _ => by simp
  | l :: ls, h => by
    rw [List.map_cons, List.sum_cons, h l (by simp),
      sum_map_const_length ls (fun x hx => h x (by simp [hx])), List.length_cons]
    ring

/-- Elementwise combination of two same-dimension data-model matrices keeps
the invariant. -/
lemma zipWith_dimInv {α : Type} (f : α → α → α) (a b : Matrix α)
    (ha : a.dimInv) (hb : b.dimInv) (hr : a.rows = b.rows)
    (hc : a.cols = b.cols) :
    (Matrix.mk a.rows a.cols (List.zipWith f a.data b.data)).dimInv := by
  show (List.zipWith f a.data b.data).length = a.rows * a.cols
  rw [List.length_zipWith, ha, hb, ← hr, ← hc, Nat.min_self]

/-- Reduction of `from_rows` on a nonempty list. -/
lemma from_rows_cons {α : Type} (r : Vector α) (rest : List (Vector α)) :
    Matrix.from_rows (r :: rest) =
      if (r :: rest).all (fun row => row.len = r.len) then
        Except.ok ⟨(r :: rest).length, r.len,
          ((r :: rest).map Vector.data).flatten⟩
      else Except.error "All rows must be the same length" := rfl

/-- Reduction of `from_columns` on a nonempty list. -/
lemma from_columns_cons {α : Type} [Zero α] (c : Vector α)
    (rest : List (Vector α)) :
    Matrix.from_columns (c :: rest) =
      if (c :: rest).all (fun col => col.len = c.len) then
        Except.ok ⟨c.len, (c :: rest).length,
          (((c :: rest).enum).foldl (fun acc p =>
            (p.2.data.enum).foldl (fun acc2 q =>
              acc2.set (q.1 * (c :: rest).length + p.1) q.2) acc)
            (List.replicate (c.len * (c :: rest).length) 0))⟩
      else Except.error "All columns must be the same length" := rfl

/-- C2 (amended): every constructor and matrix-producing operation except
`Matrix::new` yields a matrix satisfying `data.len == rows * cols`, and the
mismatched flat array and the empty or ragged row/column sets are rejected
with an error; `Matrix::new` only reserves capacity, so its data buffer is
empty and the invariant holds iff `rows * cols = 0`. -/
theorem C2_dimension_invariant {α : Type}
    [Zero α] [One α] [Add α] [Sub α] [Mul α] :
    (∀ r c, ((Matrix.new r c : Matrix α).dimInv ↔ r * c = 0)) ∧
    (∀ r c, (Matrix.zeroes r c : Matrix α).dimInv) ∧
    (∀ r c, (Matrix.ones r c : Matrix α).dimInv) ∧
    (∀ n, (Matrix.identity n : Matrix α).dimInv) ∧
    (∀ r c (l : List α),
      (l.length = r * c →
        Matrix.from_vec r c l = Except.ok (⟨r, c, l⟩ : Matrix α) ∧
        (⟨r, c, l⟩ : Matrix α).dimInv) ∧
      (l.length ≠ r * c → Matrix.from_vec r c l
        = Except.error "Data length does not match specified dimensions.")) ∧
    (∀ (rs : List (Vector α)) m', Matrix.from_rows rs = Except.ok m' →
      m'.dimInv) ∧
    (Matrix.from_rows ([] : List (Vector α))
      = Except.error "Cannot create matrix from empty vector of rows") ∧
    (∀ (r : Vector α) rest, (∃ row ∈ rest, row.len ≠ r.len) →
      Matrix.from_rows (r :: rest)
        = Except.error "All rows must be the same length") ∧
    (∀ (cs : List (Vector α)) m', Matrix.from_columns cs = Except.ok m' →
      m'.dimInv) ∧
    (Matrix.from_columns ([] : List (Vector α))
      = Except.error "Cannot create matrix from empty vector of colmuns") ∧
    (∀ (c : Vector α) rest, (∃ col ∈ rest, col.len ≠ c.len) →
      Matrix.from_columns (c :: rest)
        = Except.error "All columns must be the same length") ∧
    (∀ (m : Matrix α), m.transpose.dimInv) ∧
    (∀ (m : Matrix α) r' c' m', m.dimInv →
      m.reshape r' c' = Except.ok m' → m'.dimInv) ∧
    (∀ (m : Matrix α) (s : α), m.dimInv → (m.scalar_multiply s).dimInv) ∧
    (∀ (a b : Matrix α) m', a.dimInv → b.dimInv →
      a.add b = Except.ok m' → m'.dimInv) ∧
    (∀ (a b : Matrix α) m', a.dimInv → b.dimInv →
      a.sub b = Except.ok m' → m'.dimInv) ∧
    (∀ (a b : Matrix α) m', a.mul b = Except.ok m' → m'.dimInv) ∧
    (∀ (a b : Matrix α) m', a.dimInv → b.dimInv →
      a.hadamard_product b = Except.ok m' → m'.dimInv) := by
  refine ⟨?_, ?_, ?_, ?_, ?_, ?_, rfl, ?_, ?_, rfl, ?_, ?_, ?_, ?_, ?_, ?_,
    ?_, ?_⟩
  · intro r c
    show ([] : List α).length = r * c ↔ r * c = 0
    simp [eq_comm]
  · intro r c
    show (List.replicate (r * c) (0 : α)).length = r * c
    simp
  · intro r c
    show (List.replicate (r * c) (1 : α)).length = r * c
    simp
  · intro n
    obtain ⟨h1, h2, -⟩ := identity_dims (α := α) n
    show (Matrix.identity n : Matrix α).data.length = _
    rw [identity_data_length, h1, h2]
  · intro r c l
    constructor
    · intro h
      unfold Matrix.from_vec
      rw [if_neg (by omega)]
      exact ⟨rfl, h⟩
    · intro h
      unfold Matrix.from_vec
      rw [if_pos h]
  · intro rs m' hok
    cases rs with
    | nil => exact Except.noConfusion hok
    | cons r rest =>
      rw [from_rows_cons] at hok
      split_ifs at hok with hall
      cases hok
      show (((r :: rest).map Vector.data).flatten).length
        = (r :: rest).length * r.len
      rw [List.length_flatten]
      rw [sum_map_const_length ((r :: rest).map Vector.data) ?_,
        List.length_map]
      intro l hl
      obtain ⟨v, hv, rfl⟩ := List.mem_map.mp hl
      rw [List.all_eq_true] at hall
      exact decide_eq_true_eq.mp (hall v hv)
  · intro r rest ⟨row0, hmem, hne⟩
    rw [from_rows_cons, if_neg ?_]
    intro hall
    rw [List.all_eq_true] at hall
    exact hne (decide_eq_true_eq.mp
      (hall row0 (List.mem_cons_of_mem r hmem)))
  · intro cs m' hok
    cases cs with
    | nil => exact Except.noConfusion hok
    | cons c rest =>
      rw [from_columns_cons] at hok
      split_ifs at hok with hall
      cases hok
      simp only [Matrix.dimInv]
      have hpres : ∀ (acc : List α) (p : Nat × Vector α),
          ((p.2.data.enum).foldl (fun acc2 q =>
            acc2.set (q.1 * (c :: rest).length + p.1) q.2) acc).length
            = acc.length :=
        fun acc p => length_foldl_preserved _ (fun acc2 q => by simp)
          p.2.data.enum acc
      rw [length_foldl_preserved _ hpres, List.length_replicate]
  · intro c rest ⟨col0, hmem, hne⟩
    rw [from_columns_cons, if_neg ?_]
    intro hall
    rw [List.all_eq_true] at hall
    exact hne (decide_eq_true_eq.mp
      (hall col0 (List.mem_cons_of_mem c hmem)))
  · intro m
    show (((List.range m.cols).map (fun col =>
      (List.range m.rows).map (fun row => m.entry row col))).flatten).length
      = m.cols * m.rows
    rw [List.length_flatten]
    rw [sum_map_const_length _ ?_, List.length_map, List.length_range]
    intro l hl
    obtain ⟨col, -, rfl⟩ := List.mem_map.mp hl
    simp
  · intro m r' c' m' hinv hok
    unfold Matrix.reshape at hok
    split_ifs at hok with h
    cases hok
    show m.data.length = r' * c'
    rw [hinv, not_ne_iff.mp h]
  · intro m s hinv
    show (m.data.map (fun x => x * s)).length = m.rows * m.cols
    rw [List.length_map, hinv]
  · intro a b m' ha hb hok
    unfold Matrix.add at hok
    split_ifs at hok with h
    push_neg at h
    cases hok
    exact zipWith_dimInv _ a b ha hb h.1 h.2
  · intro a b m' ha hb hok
    unfold Matrix.sub at hok
    split_ifs at hok with h
    push_neg at h
    cases hok
    exact zipWith_dimInv _ a b ha hb h.1 h.2
  · intro a b m' hok
    unfold Matrix.mul at hok
    split_ifs at hok with h
    cases hok
    show (((List.range a.rows).map (fun i => (List.range b.cols).map
      (fun j => ((List.range a.cols).map (fun k =>
        a.entry i k * b.entry k j)).foldl (· + ·) 0))).flatten).length
      = a.rows * b.cols
    rw [List.length_flatten]
    rw [sum_map_const_length _ ?_, List.length_map, List.length_range]
    intro l hl
    obtain ⟨i, -, rfl⟩ := List.mem_map.mp hl
    simp
  · intro a b m' ha hb hok
    unfold Matrix.hadamard_product at hok
    split_ifs at hok with h
    push_neg at h
    cases hok
    exact zipWith_dimInv _ a b ha hb h.1 h.2

/-- C2 counterexample: `Matrix::new(2, 2)` has an empty data buffer while
`rows * cols = 4`, so it violates the claimed invariant. -/
theorem C2_counterexample : ¬ (Matrix.new 2 2 : Matrix ℤ).dimInv := by
  decide

/-- C2 witness: the `from_vec` acceptance and rejection clauses at concrete
inputs. -/
theorem C2_witness :
    (Matrix.from_vec 2 3 ([1, 2, 3, 4, 5, 6] : List ℤ)
        = Except.ok (⟨2, 3, [1, 2, 3, 4, 5, 6]⟩ : Matrix ℤ) ∧
      (⟨2, 3, [1, 2, 3, 4, 5, 6]⟩ : Matrix ℤ).dimInv) ∧
    Matrix.from_vec 2 3 ([1, 2, 3] : List ℤ)
      = Except.error "Data length does not match specified dimensions." :=
  ⟨(C2_dimension_invariant.2.2.2.2.1 2 3 [1, 2, 3, 4, 5, 6]).1 (by decide),
   (C2_dimension_invariant.2.2.2.2.1 2 3 [1, 2, 3]).2 (by decide)⟩

/-- Every indexed `row` call on a matrix is present, so collecting them is
a plain map of row chunks. -/
lemma rowsOf_eq_map {α : Type} (m : Matrix α) :
    m.rowsOf = (List.range m.rows).map
      (fun i => (⟨(m.data.drop (i * m.cols)).take m.cols⟩ : Vector α)) := by
  unfold Matrix.rowsOf
  refine List.filterMap_eq_map_iff_forall_eq_some.mpr (fun i hi => ?_)
  rw [List.mem_range] at hi
  unfold Matrix.row
  rw [if_neg (by omega)]

/-- C4 (amended): for a matrix of the data model with at least one row,
passing `[M.row(0), ..., M.row(rows-1)]` to `from_rows` succeeds and
reconstructs `M` exactly; a 0-row matrix yields the empty collection, which
`from_rows` rejects. -/
theorem C4_from_rows_roundtrip {α : Type} (m : Matrix α) (hinv : m.dimInv)
    (hpos : 1 ≤ m.rows) :
    Matrix.from_rows m.rowsOf = Except.ok m := by
  obtain ⟨R, hR⟩ : ∃ R, m.rows = R + 1 := ⟨m.rows - 1, by omega⟩
  set g : Nat → Vector α :=
    fun i => ⟨(m.data.drop (i * m.cols)).take m.cols⟩ with hg
  have hlen : ∀ i, i < m.rows → (g i).len = m.cols := by
    intro i hi
    show ((m.data.drop (i * m.cols)).take m.cols).length = m.cols
    rw [List.length_take, List.length_drop, hinv]
    have h1 : (i + 1) * m.cols ≤ m.rows * m.cols :=
      Nat.mul_le_mul_right _ hi
    rw [Nat.succ_mul] at h1
    omega
  have hsplit : m.rowsOf = g 0 :: (List.range R).map (g ∘ Nat.succ) := by
    rw [rowsOf_eq_map, hR, List.range_succ_eq_map, List.map_cons,
      List.map_map]
  have hlist : g 0 :: (List.range R).map (g ∘ Nat.succ)
      = (List.range m.rows).map g := by
    rw [hR, List.range_succ_eq_map, List.map_cons, List.map_map]
  have e0 : (g 0).len = m.cols := hlen 0 (by omega)
  have hall : (g 0 :: (List.range R).map (g ∘ Nat.succ)).all
      (fun row => row.len = (g 0).len) = true := by
    rw [List.all_eq_true]
    intro x hx
    rw [decide_eq_true_eq]
    rcases List.mem_cons.mp hx with h | h
    · rw [h]
    · obtain ⟨i, hi, rfl⟩ := List.mem_map.mp h
      rw [List.mem_range] at hi
      show (g (Nat.succ i)).len = (g 0).len
      rw [hlen _ (by omega), e0]
  have hcount : (g 0 :: (List.range R).map (g ∘ Nat.succ)).length
      = m.rows := by
    rw [hlist, List.length_map, List.length_range]
  have hdata : ((g 0 :: (List.range R).map (g ∘ Nat.succ)).map
      Vector.data).flatten = m.data := by
    rw [hlist, List.map_map]
    show ((List.range m.rows).map
      (fun i => (m.data.drop (i * m.cols)).take m.cols)).flatten = m.data
    exact flatten_chunks m.rows m.cols m.data hinv
  rw [hsplit]
  show Matrix.from_rows (g 0 :: (List.range R).map (g ∘ Nat.succ))
    = Except.ok m
  simp only [Matrix.from_rows]
  rw [if_pos hall, hcount, e0, hdata]

/-- C4 counterexample: a 0-row matrix (constructible through
`from_vec 0 3 []`) produces the empty row collection, which `from_rows`
rejects instead of reconstructing the matrix. -/
theorem C4_counterexample :
    ¬ (Matrix.from_rows (Matrix.rowsOf (⟨0, 3, []⟩ : Matrix ℤ))
        = Except.ok (⟨0, 3, []⟩ : Matrix ℤ)) := by
  intro h
  rw [show Matrix.from_rows (Matrix.rowsOf (⟨0, 3, []⟩ : Matrix ℤ))
      = Except.error "Cannot create matrix from empty vector of rows"
    from rfl] at h
  exact Except.noConfusion h

/-- C4 witness: a concrete 2×3 integer matrix round-trips. -/
theorem C4_witness :
    Matrix.from_rows (Matrix.rowsOf (⟨2, 3, [1, 2, 3, 4, 5, 6]⟩ : Matrix ℤ))
      = Except.ok ⟨2, 3, [1, 2, 3, 4, 5, 6]⟩ :=
  C4_from_rows_roundtrip ⟨2, 3, [1, 2, 3, 4, 5, 6]⟩ (by decide) (by decide)

/-- C5: an out-of-range `Vector::set` or `Matrix::set` returns the
out-of-bounds error and leaves the structure unchanged; an in-range `set`
succeeds, replaces exactly the addressed element, and changes nothing
else. -/
theorem C5_set_bounds {α : Type} [Zero α] :
    (∀ (v : Vector α) (i : Nat) (x : α), v.len ≤ i →
      (v.set i x).1 = Except.error "Index is out of bounds" ∧
      (v.set i x).2 = v) ∧
    (∀ (v : Vector α) (i : Nat) (x : α), i < v.len →
      (v.set i x).1 = Except.ok () ∧
      (v.set i x).2.len = v.len ∧
      (v.set i x).2.get i = some x ∧
      ∀ j, j ≠ i → (v.set i x).2.get j = v.get j) ∧
    (∀ (m : Matrix α) (r c : Nat) (x : α), m.rows ≤ r ∨ m.cols ≤ c →
      (m.set r c x).1 = Except.error "Index out of bounds" ∧
      (m.set r c x).2 = m) ∧
    (∀ (m : Matrix α) (r c : Nat) (x : α), m.dimInv →
      r < m.rows → c < m.cols →
      (m.set r c x).1 = Except.ok () ∧
      (m.set r c x).2.rows = m.rows ∧
      (m.set r c x).2.cols = m.cols ∧
      (m.set r c x).2.entry r c = x ∧
      ∀ r' c', r' < m.rows → c' < m.cols → (r', c') ≠ (r, c) →
        (m.set r c x).2.entry r' c' = m.entry r' c') := by
  refine ⟨?_, ?_, ?_, ?_⟩
  · intro v i x hi
    unfold Vector.set
    rw [if_pos hi]
    exact ⟨rfl, rfl⟩
  · intro v i x hi
    unfold Vector.set
    rw [if_neg (by omega)]
    refine ⟨rfl, ?_, ?_, ?_⟩
    · show (v.data.set i x).length = v.data.length
      simp
    · show (v.data.set i x)[i]? = some x
      rw [List.getElem?_set, if_pos rfl,
        if_pos (show i < v.data.length from hi)]
    · intro j hj
      show (v.data.set i x)[j]? = v.data[j]?
      rw [List.getElem?_set, if_neg (fun h => hj h.symm)]
  · intro m r c x hout
    unfold Matrix.set
    rw [if_pos hout]
    exact ⟨rfl, rfl⟩
  · intro m r c x hinv hr hc
    unfold Matrix.set
    rw [if_neg (by omega)]
    refine ⟨rfl, rfl, rfl, ?_, ?_⟩
    · show (m.data.set (r * m.cols + c) x).getD (r * m.cols + c) 0 = x
      rw [List.getD_eq_getElem?_getD, List.getElem?_set, if_pos rfl,
        if_pos (by rw [hinv]; exact index_lt hr hc)]
      rfl
    · intro r' c' hr' hc' hne
      show (m.data.set (r * m.cols + c) x).getD (r' * m.cols + c') 0
        = m.data.getD (r' * m.cols + c') 0
      rw [List.getD_eq_getElem?_getD, List.getElem?_set,
        if_neg (fun h => hne (by
          obtain ⟨h1, h2⟩ := rowmajor_inj hc hc' h.symm
          rw [h1, h2])),
        ← List.getD_eq_getElem?_getD]

/-- C5 witness: both error paths and the in-range replacement at concrete
inputs. -/
theorem C5_witness :
    ((((⟨[1, 2, 3]⟩ : Vector ℤ).set 3 9).1
        = Except.error "Index is out of bounds" ∧
      ((⟨[1, 2, 3]⟩ : Vector ℤ).set 3 9).2 = ⟨[1, 2, 3]⟩) ∧
     (((⟨2, 2, [1, 2, 3, 4]⟩ : Matrix ℤ).set 2 0 9).1
        = Except.error "Index out of bounds" ∧
      ((⟨2, 2, [1, 2, 3, 4]⟩ : Matrix ℤ).set 2 0 9).2 = ⟨2, 2, [1, 2, 3, 4]⟩) ∧
     ((⟨2, 2, [1, 2, 3, 4]⟩ : Matrix ℤ).set 1 0 9).2.entry 1 0 = 9) :=
  ⟨C5_set_bounds.1 ⟨[1, 2, 3]⟩ 3 9 (by decide),
   C5_set_bounds.2.2.1 ⟨2, 2, [1, 2, 3, 4]⟩ 2 0 9 (by decide),
   (C5_set_bounds.2.2.2 ⟨2, 2, [1, 2, 3, 4]⟩ 1 0 9 (by decide)
     (by decide) (by decide)).2.2.2.1⟩

/-- C6: `zip_map` has length `min (len self) (len other)`, combines the
elements at each common index with `f`, and drops the unmatched tail (it is
total — no error is raised). -/
theorem C6_zip_map {α β : Type} (a b : Vector α) (f : α → α → β) :
    (a.zip_map b f).len = min a.len b.len ∧
    ∀ i, i < min a.len b.len →
      ∃ x y, a.get i = some x ∧ b.get i = some y ∧
        (a.zip_map b f).get i = some (f x y) := by
  constructor
  · show (List.zipWith f a.data b.data).length = _
    rw [List.length_zipWith]
    rfl
  · intro i hi
    have hia : i < a.data.length := lt_of_lt_of_le hi (min_le_left _ _)
    have hib : i < b.data.length := lt_of_lt_of_le hi (min_le_right _ _)
    refine ⟨a.data[i], b.data[i], ?_, ?_, ?_⟩
    · exact List.getElem?_eq_getElem hia
    · exact List.getElem?_eq_getElem hib
    · show (List.zipWith f a.data b.data)[i]? = some (f a.data[i] b.data[i])
      rw [List.getElem?_eq_getElem (by rw [List.length_zipWith]; omega),
        List.getElem_zipWith]

/-- C6 witness: a length-3 and a length-2 vector combine to length 2, with
the common index 1 combined by `f`. -/
theorem C6_witness :
    ((⟨[1, 2, 3]⟩ : Vector ℤ).zip_map ⟨[10, 20]⟩ (· + ·)).len
      = min (⟨[1, 2, 3]⟩ : Vector ℤ).len (⟨[10, 20]⟩ : Vector ℤ).len ∧
    ∃ x y, (⟨[1, 2, 3]⟩ : Vector ℤ).get 1 = some x ∧
      (⟨[10, 20]⟩ : Vector ℤ).get 1 = some y ∧
      ((⟨[1, 2, 3]⟩ : Vector ℤ).zip_map ⟨[10, 20]⟩ (· + ·)).get 1
        = some (x + y) :=
  ⟨(C6_zip_map ⟨[1, 2, 3]⟩ ⟨[10, 20]⟩ (· + ·)).1,
   (C6_zip_map ⟨[1, 2, 3]⟩ ⟨[10, 20]⟩ (· + ·)).2 1 (by decide)⟩

/-- The in-range entries of `transpose` are the swapped entries. -/
lemma transpose_entry {α : Type} [Zero α] (m : Matrix α) {i j : Nat}
    (hi : i < m.cols) (hj : j < m.rows) :
    m.transpose.entry i j = m.entry j i :=
  entry_grid (fun c r => m.entry r c) hi hj

/-- C7: `transpose` returns a `cols×rows` matrix with entry `(i, j)` equal
to the original entry `(j, i)`, and transposing twice recovers the original
matrix of the data model. -/
theorem C7_transpose {α : Type} [Zero α] (m : Matrix α) (hinv : m.dimInv) :
    m.transpose.rows = m.cols ∧ m.transpose.cols = m.rows ∧
    (∀ i j, i < m.cols → j < m.rows → m.transpose.entry i j = m.entry j i) ∧
    m.transpose.transpose = m := by
  refine ⟨rfl, rfl, fun i j hi hj => transpose_entry m hi hj, ?_⟩
  have hdata : m.transpose.transpose.data = m.data := by
    show ((List.range m.rows).map (fun col =>
      (List.range m.cols).map (fun row =>
        m.transpose.entry row col))).flatten = m.data
    have hcongr : ∀ col ∈ List.range m.rows,
        (List.range m.cols).map (fun row => m.transpose.entry row col)
          = (List.range m.cols).map (m.entry col) := by
      intro col hcol
      refine List.map_congr_left (fun row hrow => ?_)
      rw [List.mem_range] at hcol hrow
      exact transpose_entry m hrow hcol
    rw [List.map_congr_left hcongr]
    exact data_flatten_entries m hinv
  have hfull : m.transpose.transpose
      = ⟨m.rows, m.cols, m.transpose.transpose.data⟩ := rfl
  rw [hfull, hdata]

/-- C7 witness: a concrete 2×3 integer matrix. -/
theorem C7_witness :
    (⟨2, 3, [1, 2, 3, 4, 5, 6]⟩ : Matrix ℤ).transpose.transpose
      = ⟨2, 3, [1, 2, 3, 4, 5, 6]⟩ ∧
    (⟨2, 3, [1, 2, 3, 4, 5, 6]⟩ : Matrix ℤ).transpose.rows = 3 :=
  ⟨(C7_transpose ⟨2, 3, [1, 2, 3, 4, 5, 6]⟩ (by decide)).2.2.2,
   (C7_transpose ⟨2, 3, [1, 2, 3, 4, 5, 6]⟩ (by decide)).1⟩

/-- C8: multiplying a matrix of the data model by the identity of size
`cols` on the right returns the matrix itself. -/
theorem C8_mul_identity {α : Type} [CommRing α] (m : Matrix α)
    (hinv : m.dimInv) :
    m.mul (Matrix.identity m.cols) = Except.ok m := by
  obtain ⟨hr, hc, -⟩ := identity_dims (α := α) m.cols
  rw [mul_ok_spec m (Matrix.identity m.cols) hr.symm, hc]
  have hcell : ∀ i ∈ List.range m.rows,
      (List.range m.cols).map (fun j =>
        ((List.range m.cols).map (fun k =>
          m.entry i k * (Matrix.identity m.cols : Matrix α).entry k j)).foldl
            (· + ·) 0)
      = (List.range m.cols).map (m.entry i) := by
    intro i _
    refine List.map_congr_left (fun j hj => ?_)
    rw [List.mem_range] at hj
    rw [foldl_add_eq_sum]
    calc ∑ k ∈ Finset.range m.cols,
          m.entry i k * (Matrix.identity m.cols : Matrix α).entry k j
        = ∑ k ∈ Finset.range m.cols, (if k = j then m.entry i k else 0) := by
          refine Finset.sum_congr rfl (fun k hk => ?_)
          rw [identity_entry (Finset.mem_range.mp hk) hj]
          by_cases hkj : k = j
          · rw [if_pos hkj, if_pos hkj, mul_one]
          · rw [if_neg hkj, if_neg hkj, mul_zero]
      _ = m.entry i j := by
          rw [Finset.sum_ite_eq' (Finset.range m.cols) j (fun k => m.entry i k),
            if_pos (Finset.mem_range.mpr hj)]
  have hdata : ((List.range m.rows).map (fun i =>
      (List.range m.cols).map (fun j =>
        ((List.range m.cols).map (fun k =>
          m.entry i k * (Matrix.identity m.cols : Matrix α).entry k j)).foldl
            (· + ·) 0))).flatten = m.data := by
    rw [List.map_congr_left hcell]
    exact data_flatten_entries m hinv
  rw [hdata]

/-- C8 witness: a concrete 2×3 integer matrix times the 3×3 identity. -/
theorem C8_witness :
    (⟨2, 3, [1, 2, 3, 4, 5, 6]⟩ : Matrix ℤ).mul
      (Matrix.identity (⟨2, 3, [1, 2, 3, 4, 5, 6]⟩ : Matrix ℤ).cols)
      = Except.ok ⟨2, 3, [1, 2, 3, 4, 5, 6]⟩ :=
  C8_mul_identity ⟨2, 3, [1, 2, 3, 4, 5, 6]⟩ (by decide)

/-- C9: a 0×0 matrix passes the square check, skips both base cases, runs
the expansion loop zero times and returns the accumulator's initial value —
the value type's zero, not one. -/
theorem C9_det_zero_matrix {α : Type} [Zero α] [Add α] [Sub α] [Mul α]
    (m : Matrix α) (h0 : m.rows = 0) (hc : m.cols = 0) :
    m.determinant = Except.ok 0 :=
  determinant_zero_size m h0 hc

/-- C9 witness: the concrete empty matrix over ℤ, where the returned zero
is distinct from one. -/
theorem C9_witness :
    (⟨0, 0, []⟩ : Matrix ℤ).determinant = Except.ok 0 ∧ (0 : ℤ) ≠ 1 :=
  ⟨C9_det_zero_matrix ⟨0, 0, []⟩ rfl rfl, by decide⟩

/-- C10: each compound-assignment operator combines elements only at
indices below `min (len a) (len b)`, keeps `a`'s length, leaves every
element at an index `≥ len b` unchanged, and is the identity when `b` is
empty. -/
theorem C10_assign_ops {α : Type} [Add α] [Sub α] [Mul α] [Div α]
    (a b : Vector α) :
    ((a.addAssign b).len = a.len ∧
     (∀ i, i < min a.len b.len → ∃ x y, a.get i = some x ∧ b.get i = some y ∧
       (a.addAssign b).get i = some (x + y)) ∧
     (∀ i, b.len ≤ i → (a.addAssign b).get i = a.get i) ∧
     (b.len = 0 → a.addAssign b = a)) ∧
    ((a.subAssign b).len = a.len ∧
     (∀ i, i < min a.len b.len → ∃ x y, a.get i = some x ∧ b.get i = some y ∧
       (a.subAssign b).get i = some (x - y)) ∧
     (∀ i, b.len ≤ i → (a.subAssign b).get i = a.get i) ∧
     (b.len = 0 → a.subAssign b = a)) ∧
    ((a.mulAssign b).len = a.len ∧
     (∀ i, i < min a.len b.len → ∃ x y, a.get i = some x ∧ b.get i = some y ∧
       (a.mulAssign b).get i = some (x * y)) ∧
     (∀ i, b.len ≤ i → (a.mulAssign b).get i = a.get i) ∧
     (b.len = 0 → a.mulAssign b = a)) ∧
    ((a.divAssign b).len = a.len ∧
     (∀ i, i < min a.len b.len → ∃ x y, a.get i = some x ∧ b.get i = some y ∧
       (a.divAssign b).get i = some (x / y)) ∧
     (∀ i, b.len ≤ i → (a.divAssign b).get i = a.get i) ∧
     (b.len = 0 → a.divAssign b = a)) :=
  ⟨assign_spec (· + ·) a b, assign_spec (· - ·) a b,
   assign_spec (· * ·) a b, assign_spec (· / ·) a b⟩

/-- C10 witness: `+=` on `[1,2,3] += [10,20]` combines index 1, leaves
index 2 alone, and `/=` with an empty right operand is the identity. -/
theorem C10_witness :
    (∃ x y, (⟨[1, 2, 3]⟩ : Vector ℤ).get 1 = some x ∧
      (⟨[10, 20]⟩ : Vector ℤ).get 1 = some y ∧
      ((⟨[1, 2, 3]⟩ : Vector ℤ).addAssign ⟨[10, 20]⟩).get 1 = some (x + y)) ∧
    ((⟨[1, 2, 3]⟩ : Vector ℤ).addAssign ⟨[10, 20]⟩).get 2
      = (⟨[1, 2, 3]⟩ : Vector ℤ).get 2 ∧
    (⟨[1, 2, 3]⟩ : Vector ℤ).divAssign ⟨[]⟩ = ⟨[1, 2, 3]⟩ :=
  ⟨(C10_assign_ops ⟨[1, 2, 3]⟩ ⟨[10, 20]⟩).1.2.1 1 (by decide),
   (C10_assign_ops ⟨[1, 2, 3]⟩ ⟨[10, 20]⟩).1.2.2.1 2 (by decide),
   (C10_assign_ops (⟨[1, 2, 3]⟩ : Vector ℤ) ⟨[]⟩).2.2.2.2.2.2 rfl⟩

end Oxidize
